import Mathlib

/-!
A shallow embedding of src/xml/helper.c: C glue functions bridging a host
runtime to the libxml2 parsing library.

Modelling conventions:
* C pointers are modelled as integers (0 is NULL, -1 is the documented
  "already detached" sentinel) or as `Option` values where only nullness
  matters.
* C strings and byte buffers are modelled as `List Char`.
* Calls into the wrapped library are modelled by environment records that
  describe the library's response, and each adapter function additionally
  returns an event trace recording the calls it makes, so that ordering
  properties (reset-before-parse, close-after-writes, ...) are statable.
-/

set_option maxHeartbeats 1000000
set_option linter.unusedVariables false

/-- The C NUL character, used as string terminator and padding. -/
def cNul : Char := Char.ofNat 0

/-! ### Write and close callbacks (helper.c lines 5-14) -/

/-- Events visible to the host sink during a save operation. -/
inductive WEv where
  | nodeWrite (ctx : Nat) (buffer : List Char) (len : Int)
  | closeCB (ctx : Nat)
deriving DecidableEq

/-- helper.c, xml_write_callback: forwards the chunk to the host sink
(xmlNodeWriteCallback) when len > 0 and returns len unchanged. -/
def xml_write_callback (ctx : Nat) (buffer : List Char) (len : Int) :
    List WEv × Int :=
  (if 0 < len then [WEv.nodeWrite ctx buffer len] else [], len)

/-- helper.c, close_callback: returns 0 and does not call into the host. -/
def close_callback (ctx : Nat) : Int := 0

/-! ### Tree saving (helper.c lines 134-147) -/

/-- Response of the wrapped library during xmlSaveNode: the chunks the
serializer pushes through the registered write callback during
xmlSaveTree, the chunks flushed during xmlSaveClose, and the result code
of the close operation. -/
structure SaveEnv where
  treeChunks : List (List Char × Int)
  flushChunks : List (List Char × Int)
  closeRet : Int
deriving DecidableEq

/-- Modelled from the spec: the library pushes each serialized chunk
through the registered write callback (here xml_write_callback). -/
def pushChunks (wbuffer : Nat) (chunks : List (List Char × Int)) : List WEv :=
  chunks.flatMap (fun p => (xml_write_callback wbuffer p.1 p.2).1)

/-- Modelled from the spec: xmlSaveClose flushes any pending chunks through
the write callback, invokes the registered close callback exactly once,
and yields the close operation's result code. -/
def xmlSaveCloseM (wbuffer : Nat) (env : SaveEnv) : Int × List WEv :=
  (env.closeRet, pushChunks wbuffer env.flushChunks ++ [WEv.closeCB wbuffer])

/-- helper.c, xmlSaveNode: opens a save context over the two callbacks,
serializes the subtree (xmlSaveTree), then returns xmlSaveClose's result. -/
def xmlSaveNode (wbuffer : Nat) (env : SaveEnv) : Int × List WEv :=
  let saveEvs := pushChunks wbuffer env.treeChunks
  let closed := xmlSaveCloseM wbuffer env
  (closed.1, saveEvs ++ closed.2)

/-! ### Safe unlink (helper.c lines 120-132) -/

/-- The NULL pointer value. -/
def NULL_ptr : Int := 0

/-- The documented "already detached" sentinel parent value, (void*)(-1). -/
def detachedSentinel : Int := -1

/-- A node as far as unlinking is concerned: its parent pointer value. -/
structure UNode where
  parent : Int
deriving DecidableEq

/-- Unlink events. -/
inductive UEv where
  | unlinked
deriving DecidableEq

/-- helper.c, xmlNodePtrCheck: 0 (false) exactly for the pointer value -1,
1 (true) for every other value. -/
def xmlNodePtrCheck (node : Int) : Bool :=
  if node = detachedSentinel then false else true

/-- Modelled from the spec: libxml2's xmlUnlinkNode detaches the node from
its tree and leaves the node's parent pointer NULL (the library does not
write the -1 sentinel; only host-side code does). -/
def xmlUnlinkNode (n : UNode) : UNode := { n with parent := NULL_ptr }

/-- helper.c, xmlUnlinkNodeWithCheck: if the parent passes xmlNodePtrCheck,
unlink the node and return 1, otherwise return 0 without action. -/
def xmlUnlinkNodeWithCheck (n : UNode) : Bool × UNode × List UEv :=
  if xmlNodePtrCheck n.parent then (true, xmlUnlinkNode n, [UEv.unlinked])
  else (false, n, [])

/-! ### Full-buffer parsing (helper.c lines 44-69) -/

/-- The libxml2 last-error record, as far as xmlParse reads it. -/
structure XmlErr where
  level : Int
  message : Option (List Char)
deriving DecidableEq

/-- xmlErrorLevel value XML_ERR_ERROR. -/
def XML_ERR_ERROR : Int := 2

/-- Response of the wrapped library during xmlParse: the xmlReadMemory
result (none = NULL document) and the process-wide last error that
xmlGetLastError returns right after that read. -/
structure ParseEnv where
  readMemory : Option Nat
  lastError : Option XmlErr
deriving DecidableEq

/-- Library calls made by xmlParse, in order. -/
inductive PEv where
  | resetLastError
  | readMemory
  | freeDoc
  | getLastError
deriving DecidableEq

/-- C strncpy(dst, src, n) restricted to its effect on the first n bytes:
the first min(n, |src|) bytes of src, padded with NUL up to n bytes. -/
def strncpyBytes (src : List Char) (n : Nat) : List Char :=
  src.take n ++ List.replicate (n - src.length) cNul

/-- The error-buffer write performed by xmlParse on a buffer dst of
capacity |dst| ≥ 1: strncpy(dst, src, |dst|-1) followed by
dst[|dst|-1] = 0.  (Capacity 0 is an out-of-bounds write in the C.) -/
def strncpyTerm (dst src : List Char) : List Char :=
  strncpyBytes src (dst.length - 1) ++ [cNul]

/-- helper.c, xmlParse: resets the global error state, reads the buffer;
on a NULL result frees the (NULL) doc, reads the last error and copies
its message (truncated, NUL-terminated) into the caller's error buffer
when the error exists, the buffer is non-NULL, the severity is at least
XML_ERR_ERROR and a message exists.  Returns the document, the resulting
error-buffer contents, and the trace of library calls. -/
def xmlParse (env : ParseEnv) (error_buffer : Option (List Char)) :
    Option Nat × Option (List Char) × List PEv :=
  match env.readMemory with
  | some doc => (some doc, error_buffer, [PEv.resetLastError, PEv.readMemory])
  | none =>
      let buf :=
        match env.lastError, error_buffer with
        | some e, some cbuf =>
            if XML_ERR_ERROR ≤ e.level then
              match e.message with
              | some m => some (strncpyTerm cbuf m)
              | none => some cbuf
            else some cbuf
        | _, _ => error_buffer
      (none, buf,
       [PEv.resetLastError, PEv.readMemory, PEv.freeDoc, PEv.getLastError])

/-! ### In-context fragment parsing (helper.c lines 71-84) -/

/-- xmlParserErrors value XML_ERR_OK. -/
def XML_ERR_OK : Nat := 0

/-- Response of the wrapped library during xmlParseFragment: the result
code of xmlParseInNodeContext, and the fragment root node it stores
through the out parameter when the code is XML_ERR_OK. -/
structure CtxFragEnv where
  errCode : Nat
  rootElement : Nat
deriving DecidableEq

/-- Observable side effects of xmlParseFragment. -/
inductive CFEv where
  | printErr (code : Nat)
deriving DecidableEq

/-- helper.c, xmlParseFragment: on a non-OK result code the diagnostic is
only printed (the error-buffer write is commented out in the source) and
NULL is returned; on XML_ERR_OK the parsed fragment root is returned.
The caller's error buffer is returned unchanged in both cases. -/
def xmlParseFragment (doc : Nat) (env : CtxFragEnv)
    (error_buffer : Option (List Char)) :
    Option Nat × Option (List Char) × List CFEv :=
  if env.errCode ≠ XML_ERR_OK then
    (none, error_buffer, [CFEv.printErr env.errCode])
  else
    (some env.rootElement, error_buffer, [])

/-! ### Standalone fragment parsing (helper.c lines 86-100) -/

/-- A temporary document produced by xmlReadMemory inside
xmlParseFragmentAsDoc: its root element (none = no root). -/
structure TmpDoc where
  root : Option Nat
deriving DecidableEq

/-- Response of the wrapped library during xmlParseFragmentAsDoc: the
xmlReadMemory result and the node that xmlDocCopyNode returns. -/
structure FragDocEnv where
  readMemory : Option TmpDoc
  copyResult : Nat
deriving DecidableEq

/-- Library calls made by xmlParseFragmentAsDoc, in order. -/
inductive FEv where
  | readMemory
  | getRootElement
  | copyNode (root : Nat) (targetDoc : Nat) (extended : Nat)
  | freeDoc
deriving DecidableEq

/-- helper.c, xmlParseFragmentAsDoc: parses the buffer as an independent
temporary document; returns NULL if that produced no document or the
document has no root element; otherwise deep-copies (extended = 1) the
root into the target document, frees the temporary document and returns
the copy. -/
def xmlParseFragmentAsDoc (doc : Nat) (env : FragDocEnv) :
    Option Nat × List FEv :=
  match env.readMemory with
  | none => (none, [FEv.readMemory])
  | some tmpDoc =>
      match tmpDoc.root with
      | none => (none, [FEv.readMemory, FEv.getRootElement])
      | some r =>
          (some env.copyResult,
           [FEv.readMemory, FEv.getRootElement, FEv.copyNode r doc 1,
            FEv.freeDoc])

/-! ### Content replacement (helper.c lines 102-118) -/

/-- A node as far as xmlSetContent is concerned: its (ordered) children,
identified by numbers, and its string content. -/
structure SCNode where
  children : List Nat
  content : List Char
deriving DecidableEq

/-- Observable side effects of xmlSetContent.  freeChildNode is never
emitted: the xmlFreeNode call is commented out in the source. -/
inductive SCEv where
  | unlinkChild (child : Nat)
  | removalCallback (child : Nat) (gonode : Nat)
  | freeChildNode (child : Nat)
  | setContentEv (s : List Char)
  | freeEncoded
deriving DecidableEq

/-- Modelled from the spec: libxml2's xmlEncodeSpecialChars escapes the
reserved markup characters of one character. -/
def encodeSpecialChar (c : Char) : List Char :=
  if c = '<' then ['&', 'l', 't', ';']
  else if c = '>' then ['&', 'g', 't', ';']
  else if c = '&' then ['&', 'a', 'm', 'p', ';']
  else if c = '"' then ['&', 'q', 'u', 'o', 't', ';']
  else if c = Char.ofNat 13 then ['&', '#', '1', '3', ';']
  else [c]

/-- Modelled from the spec: libxml2's xmlEncodeSpecialChars escapes the
reserved markup characters of the whole string. -/
def xmlEncodeSpecialChars (s : List Char) : List Char :=
  s.flatMap encodeSpecialChar

/-- The while loop of xmlSetContent: for each child in order, unlink it
and notify the host runtime via xmlUnlinkNodeCallback(child, gonode). -/
def childTeardown (gonode : Nat) : List Nat → List SCEv
  | [] => []
  | child :: next =>
      SCEv.unlinkChild child :: SCEv.removalCallback child gonode ::
        childTeardown gonode next

/-- helper.c, xmlSetContent: encodes the content for the node's document
(the encoder models xmlEncodeSpecialChars on node->doc, returning none on
failure).  Only if encoding succeeds: unlinks every child notifying the
host per child, sets the node content to the encoded string, and frees
the temporary encoded buffer.  On encoding failure nothing happens. -/
def xmlSetContent (gonode : Nat) (node : SCNode) (content : List Char)
    (encoder : List Char → Option (List Char)) : SCNode × List SCEv :=
  match encoder content with
  | none => (node, [])
  | some encoded =>
      (⟨[], encoded⟩,
       childTeardown gonode node.children ++
         [SCEv.setContentEv encoded, SCEv.freeEncoded])

/-- The child and host handle of a removal-callback event. -/
def callbackOf : SCEv → Option (Nat × Nat)
  | SCEv.removalCallback c g => some (c, g)
  | _ => none

/-! ### Document serialization and re-parsing (helper.c lines 30-35, 44-69)

Claim C9 is about the composition of xmlDocDumpToString and xmlParse,
whose substance (xmlDocDumpFormatMemoryEnc and xmlReadMemory) lives in
the wrapped library, not in this repository.  The definitions below are
therefore modelled from the spec: a document tree of elements (with
ordered attributes) and text nodes, the library's formatted dump of such
a tree (ASCII content, default options, format 0), and the library's
parse of the dumped form. -/

/-- Modelled from the spec: the element/attribute/text tree of a parsed
document ("Document: root container for a parsed tree; Node: tree
element with type, children (ordered sequence)"). -/
inductive XTree where
  | elem (name : List Char) (attrs : List (List Char × List Char))
      (kids : List XTree)
  | text (s : List Char)

/-- A character allowed in element and attribute names of the model:
ASCII letters and digits. -/
def validNameChar (c : Char) : Bool :=
  (decide ('a' ≤ c) && decide (c ≤ 'z')) ||
    (decide ('A' ≤ c) && decide (c ≤ 'Z')) ||
    (decide ('0' ≤ c) && decide (c ≤ '9'))

/-- ASCII character (the claim restricts to ASCII content). -/
def isAsciiChar (c : Char) : Bool := decide (c.toNat < 128)

/-- A valid name: non-empty, made of name characters. -/
def validName (n : List Char) : Bool := !n.isEmpty && n.all validNameChar

/-- A valid attribute: valid name, ASCII value. -/
def validAttr (a : List Char × List Char) : Bool :=
  validName a.1 && a.2.all isAsciiChar

/-- Whether a node is a text node. -/
def isTextNode : XTree → Bool
  | XTree.text _ => true
  | XTree.elem _ _ _ => false

mutual
/-- Well-formedness of a parsed ASCII document tree: names are valid,
attribute values and text are ASCII, text nodes are non-empty, and no
two text nodes are adjacent (the library merges adjacent text). -/
def wfTree : XTree → Bool
  | XTree.text s => !s.isEmpty && s.all isAsciiChar
  | XTree.elem n attrs kids =>
      validName n && attrs.all validAttr && wfKids kids
def wfKids : List XTree → Bool
  | [] => true
  | [k] => wfTree k
  | k1 :: k2 :: ks =>
      wfTree k1 && !(isTextNode k1 && isTextNode k2) && wfKids (k2 :: ks)
end

/-- A well-formed document: its root is a well-formed element. -/
def wellFormedDoc : XTree → Bool
  | XTree.elem n attrs kids => wfTree (XTree.elem n attrs kids)
  | XTree.text _ => false

/-- Modelled from the spec: serialization of an attribute list, one space
before each attribute, values escaped and double-quoted. -/
def serAttrs : List (List Char × List Char) → List Char
  | [] => []
  | (k, v) :: as =>
      ' ' :: (k ++ '=' :: '"' :: (xmlEncodeSpecialChars v ++ '"' :: serAttrs as))

mutual
/-- Modelled from the spec: the library's serialization of one node —
text is escaped; an element without children dumps as a self-closing
tag, otherwise start tag, children in order, end tag. -/
def serTree : XTree → List Char
  | XTree.text s => xmlEncodeSpecialChars s
  | XTree.elem name attrs kids =>
      match kids with
      | [] => '<' :: (name ++ serAttrs attrs ++ ['/', '>'])
      | _ :: _ =>
          '<' :: (name ++ serAttrs attrs ++ '>' ::
            (serKids kids ++ '<' :: '/' :: (name ++ ['>'])))
def serKids : List XTree → List Char
  | [] => []
  | k :: ks => serTree k ++ serKids ks
end

mutual
/-- Number of nodes of a tree (used to bound the parser fuel). -/
def nodeCount : XTree → Nat
  | XTree.text _ => 1
  | XTree.elem _ _ kids => 1 + kidsCount kids
def kidsCount : List XTree → Nat
  | [] => 0
  | k :: ks => nodeCount k + kidsCount ks
end

/-- Decoding of one XML entity body (after the ampersand). -/
def unescEntity : List Char → Option (Char × List Char)
  | 'l' :: 't' :: ';' :: r => some ('<', r)
  | 'g' :: 't' :: ';' :: r => some ('>', r)
  | 'a' :: 'm' :: 'p' :: ';' :: r => some ('&', r)
  | 'q' :: 'u' :: 'o' :: 't' :: ';' :: r => some ('"', r)
  | '#' :: '1' :: '3' :: ';' :: r => some (Char.ofNat 13, r)
  | _ => none

/-- Fueled entity-decoding scan (the fuel bounds the number of decoded
characters; one character is produced per step). -/
def unescapeFuel : Nat → List Char → List Char
  | 0, _ => []
  | _, [] => []
  | fuel + 1, c :: r =>
      if c = '&' then
        match unescEntity r with
        | some p => p.1 :: unescapeFuel fuel p.2
        | none => c :: unescapeFuel fuel r
      else c :: unescapeFuel fuel r

/-- Entity decoding of a character-data run (length is always enough
fuel, since every step produces one character). -/
def unescapeX (l : List Char) : List Char := unescapeFuel l.length l

/-- Whether the kid-list parser must stop: at the end-tag opener "</" or
at the end of input. -/
def stopKids : List Char → Bool
  | [] => true
  | [_] => false
  | c :: d :: _ => decide (c = '<') && decide (d = '/')

/-- Modelled from the spec: parser for an attribute list — a space, a
name, =, a double-quoted escaped value, repeated; stops at anything
else.  Fueled by the attribute count. -/
def parseAttrs : Nat → List Char →
    Option (List (List Char × List Char) × List Char)
  | 0, _ => none
  | fuel + 1, l =>
      match l with
      | [] => some ([], [])
      | c :: r0 =>
          if c = ' ' then
            let k := r0.takeWhile validNameChar
            let r1 := r0.dropWhile validNameChar
            if k.isEmpty then none
            else
              match r1 with
              | d1 :: d2 :: r2 =>
                  if d1 = '=' && d2 = '"' then
                    let v := r2.takeWhile (fun x => !(x = '"'))
                    let r3 := r2.dropWhile (fun x => !(x = '"'))
                    match r3 with
                    | d3 :: r4 =>
                        if d3 = '"' then
                          match parseAttrs fuel r4 with
                          | none => none
                          | some (as, r5) => some ((k, unescapeX v) :: as, r5)
                        else none
                    | [] => none
                  else none
              | _ => none
          else some ([], c :: r0)

mutual
/-- Modelled from the spec: recursive-descent parser for one node (an
element with attributes and children, or a character-data run) and for a
kid list.  Fueled; the wrapper always supplies enough fuel. -/
def parseNode : Nat → List Char → Option (XTree × List Char)
  | 0, _ => none
  | fuel + 1, l =>
      match l with
      | [] => none
      | c :: r0 =>
          if c = '<' then
            let name := r0.takeWhile validNameChar
            let r1 := r0.dropWhile validNameChar
            if name.isEmpty then none
            else
              match parseAttrs (r1.length + 1) r1 with
              | none => none
              | some (attrs, r2) =>
                  match r2 with
                  | [] => none
                  | d :: r2a =>
                      if d = '/' then
                        match r2a with
                        | [] => none
                        | d2 :: r3 =>
                            if d2 = '>' then some (XTree.elem name attrs [], r3)
                            else none
                      else if d = '>' then
                        match parseKids fuel r2a with
                        | none => none
                        | some (kids, r4) =>
                            match r4 with
                            | [] => none
                            | e1 :: r4a =>
                                if e1 = '<' then
                                  match r4a with
                                  | [] => none
                                  | e2 :: r5 =>
                                      if e2 = '/' then
                                        let name2 := r5.takeWhile validNameChar
                                        let r6 := r5.dropWhile validNameChar
                                        if name2 = name then
                                          match r6 with
                                          | [] => none
                                          | e3 :: r7 =>
                                              if e3 = '>' then
                                                some (XTree.elem name attrs kids,
                                                  r7)
                                              else none
                                        else none
                                      else none
                                else none
                      else none
          else
            let t := (c :: r0).takeWhile (fun d => !(d = '<'))
            let r := (c :: r0).dropWhile (fun d => !(d = '<'))
            if t.isEmpty then none
            else some (XTree.text (unescapeX t), r)

def parseKids : Nat → List Char → Option (List XTree × List Char)
  | 0, _ => none
  | fuel + 1, l =>
      if stopKids l then some ([], l)
      else
        match parseNode fuel l with
        | none => none
        | some (t, r) =>
            match parseKids fuel r with
            | none => none
            | some (ts, r2) => some (t :: ts, r2)
end

/-- The XML declaration the library's dump emits before the tree. -/
def xmlHeader : List Char :=
  ['<', '?', 'x', 'm', 'l', ' ', 'v', 'e', 'r', 's', 'i', 'o', 'n', '=',
   '"', '1', '.', '0', '"', '?', '>', '\n']

/-- Drops an exact expected run of characters, or fails. -/
def dropExact : List Char → List Char → Option (List Char)
  | [], l => some l
  | _ :: _, [] => none
  | h :: hs, c :: cs => if c = h then dropExact hs cs else none

/-- Modelled from the spec: xmlDocDumpToString (the library's formatted
dump with default encoding, format 0) on a document whose root element
is d: XML declaration, the serialized root, a final newline. -/
def xmlDocDumpToStringM (d : XTree) : List Char :=
  xmlHeader ++ (serTree d ++ ['\n'])

/-- Modelled from the spec: xmlReadMemory with default options on a
dumped document: the declaration, then the root element, then at most a
final newline.  The fuel 2|s|+2 always suffices. -/
def xmlReadMemoryM (s : List Char) : Option XTree :=
  match dropExact xmlHeader s with
  | none => none
  | some s1 =>
      match parseNode (2 * s1.length + 2) s1 with
      | none => none
      | some (t, rest) =>
          if rest = [] || rest = ['\n'] then some t else none

mutual
/-- The element-and-attribute skeleton of a tree: elements keep name,
attributes and the skeletons of their children; text nodes are erased. -/
def elemAttrStructure : XTree → List XTree
  | XTree.text _ => []
  | XTree.elem n a kids => [XTree.elem n a (elemAttrStructureKids kids)]
def elemAttrStructureKids : List XTree → List XTree
  | [] => []
  | k :: ks => elemAttrStructure k ++ elemAttrStructureKids ks
end

/-! ### Theorems -/

/-- C8: for every chunk passed to the adapter's write callback, the chunk
is forwarded to the host sink iff its length is strictly positive, and
the callback returns the given length unchanged in every case. -/
theorem c8_write_callback_spec (ctx : Nat) (buffer : List Char) (len : Int) :
    (xml_write_callback ctx buffer len).2 = len ∧
    (0 < len →
      (xml_write_callback ctx buffer len).1 = [WEv.nodeWrite ctx buffer len]) ∧
    (¬ 0 < len → (xml_write_callback ctx buffer len).1 = []) := by
  refine ⟨rfl, ?_, ?_⟩ <;> intro h <;> simp [xml_write_callback, h]

/-- C8 witness: concrete instances, a positive and a zero length. -/
theorem c8_write_callback_spec_witness :
    (0 : Int) < 1 ∧
    (xml_write_callback 7 ['x'] 1).1 = [WEv.nodeWrite 7 ['x'] 1] ∧
    (xml_write_callback 7 ['x'] 0).1 = [] :=
  ⟨by decide, (c8_write_callback_spec 7 ['x'] 1).2.1 (by decide),
    (c8_write_callback_spec 7 ['x'] 0).2.2 (by decide)⟩

/-- Every event produced by pushing chunks through the write callback is a
host write event for that sink context. -/
theorem mem_pushChunks {w : Nat} {chunks : List (List Char × Int)} {e : WEv}
    (he : e ∈ pushChunks w chunks) : ∃ b l, e = WEv.nodeWrite w b l := by
  simp only [pushChunks, List.mem_flatMap] at he
  obtain ⟨p, _, hp⟩ := he
  simp only [xml_write_callback] at hp
  by_cases h : (0 : Int) < p.2
  · rw [if_pos h] at hp
    simp only [List.mem_singleton] at hp
    exact ⟨p.1, p.2, hp⟩
  · rw [if_neg h] at hp
    simp at hp

/-- C5: for every invocation of saveSubtree, the return value is exactly
the close operation's result code, the close callback fires exactly once,
and it fires after every host write event (for every subtree trace,
including the empty one, and regardless of where serialization stopped). -/
theorem c5_saveNode_close_contract (wbuffer : Nat) (env : SaveEnv) :
    (xmlSaveNode wbuffer env).1 = env.closeRet ∧
    (xmlSaveNode wbuffer env).2.count (WEv.closeCB wbuffer) = 1 ∧
    (∃ pre, (xmlSaveNode wbuffer env).2 = pre ++ [WEv.closeCB wbuffer] ∧
      ∀ e ∈ pre, ∃ b l, e = WEv.nodeWrite wbuffer b l) := by
  refine ⟨rfl, ?_, ?_⟩
  · have hmem : WEv.closeCB wbuffer ∉
        pushChunks wbuffer env.treeChunks ++ pushChunks wbuffer env.flushChunks := by
      intro hin
      rcases List.mem_append.mp hin with h | h
      · obtain ⟨b, l, hb⟩ := mem_pushChunks h
        exact WEv.noConfusion hb
      · obtain ⟨b, l, hb⟩ := mem_pushChunks h
        exact WEv.noConfusion hb
    show (pushChunks wbuffer env.treeChunks ++
        (pushChunks wbuffer env.flushChunks ++ [WEv.closeCB wbuffer])).count
          (WEv.closeCB wbuffer) = 1
    rw [← List.append_assoc, List.count_append,
        List.count_eq_zero.mpr hmem]
    simp
  · refine ⟨pushChunks wbuffer env.treeChunks ++ pushChunks wbuffer env.flushChunks,
      ?_, ?_⟩
    · show pushChunks wbuffer env.treeChunks ++
          (pushChunks wbuffer env.flushChunks ++ [WEv.closeCB wbuffer]) = _
      rw [← List.append_assoc]
    · intro e he
      rcases List.mem_append.mp he with h | h
      · exact mem_pushChunks h
      · exact mem_pushChunks h

/-- C5 witness: a concrete save with one non-empty chunk, one empty chunk
and close result 5. -/
theorem c5_saveNode_close_contract_witness :
    (xmlSaveNode 3 ⟨[(['a'], 1), ([], 0)], [], 5⟩).1 = 5 ∧
    (xmlSaveNode 3 ⟨[(['a'], 1), ([], 0)], [], 5⟩).2.count (WEv.closeCB 3) = 1 :=
  ⟨(c5_saveNode_close_contract 3 ⟨[(['a'], 1), ([], 0)], [], 5⟩).1,
    (c5_saveNode_close_contract 3 ⟨[(['a'], 1), ([], 0)], [], 5⟩).2.1⟩

/-- C2 counterexample: a node attached to parent 42.  The first
unlinkIfAttached call unlinks and returns true; the second call, made
immediately afterwards on the same node, returns true again — not false
as the claim states — and invokes the unlink once more. -/
theorem c2_double_unlink_counterexample :
    (xmlUnlinkNodeWithCheck ⟨42⟩).1 = true ∧
    (xmlUnlinkNodeWithCheck (xmlUnlinkNodeWithCheck ⟨42⟩).2.1).1 = true ∧
    (xmlUnlinkNodeWithCheck (xmlUnlinkNodeWithCheck ⟨42⟩).2.1).2.2 =
      [UEv.unlinked] := by
  decide

/-- C2 amended: unlinkIfAttached unlinks the node and returns true when
the parent differs from the documented "already detached" sentinel (-1),
and returns false without action when the parent equals the sentinel; but
on two calls in a row the second call returns true again, because the
unlink leaves the parent NULL and the sentinel check accepts NULL. -/
theorem c2_unlink_with_check_amended (n : UNode) :
    (n.parent ≠ detachedSentinel →
      xmlUnlinkNodeWithCheck n = (true, ⟨NULL_ptr⟩, [UEv.unlinked]) ∧
      (xmlUnlinkNodeWithCheck (xmlUnlinkNodeWithCheck n).2.1).1 = true) ∧
    (n.parent = detachedSentinel →
      xmlUnlinkNodeWithCheck n = (false, n, [])) := by
  constructor
  · intro h
    have hc : xmlNodePtrCheck n.parent = true := by
      simp [xmlNodePtrCheck, h]
    have h1 : xmlUnlinkNodeWithCheck n = (true, ⟨NULL_ptr⟩, [UEv.unlinked]) := by
      simp [xmlUnlinkNodeWithCheck, hc, xmlUnlinkNode]
    refine ⟨h1, ?_⟩
    rw [h1]
    decide
  · intro h
    have hc : xmlNodePtrCheck n.parent = false := by
      simp [xmlNodePtrCheck, h]
    simp [xmlUnlinkNodeWithCheck, hc]

/-- C2 amended witness: parent 42 is not the sentinel and both calls
return true; parent -1 is the sentinel and the call is a no-op. -/
theorem c2_unlink_with_check_amended_witness :
    ((42 : Int) ≠ detachedSentinel ∧
      xmlUnlinkNodeWithCheck ⟨42⟩ = (true, ⟨NULL_ptr⟩, [UEv.unlinked]) ∧
      (xmlUnlinkNodeWithCheck (xmlUnlinkNodeWithCheck ⟨42⟩).2.1).1 = true) ∧
    ((-1 : Int) = detachedSentinel ∧
      xmlUnlinkNodeWithCheck ⟨-1⟩ = (false, ⟨-1⟩, [])) :=
  ⟨⟨by decide, (c2_unlink_with_check_amended ⟨42⟩).1 (by decide)⟩,
    ⟨by decide, (c2_unlink_with_check_amended ⟨-1⟩).2 (by decide)⟩⟩

/-- C10: the sentinel check returns false only for the exact pointer value
-1 and true for every other value (in particular NULL); consequently a
node whose parent is NULL — the state libxml2 leaves after an unlink — is
treated as attached: it is unlinked again and true is returned. -/
theorem c10_null_parent_treated_attached (p : Int) (n : UNode) :
    (xmlNodePtrCheck p = false ↔ p = -1) ∧
    xmlNodePtrCheck NULL_ptr = true ∧
    (n.parent = NULL_ptr →
      (xmlUnlinkNodeWithCheck n).1 = true ∧
      (xmlUnlinkNodeWithCheck n).2.2 = [UEv.unlinked]) := by
  refine ⟨?_, by decide, ?_⟩
  · constructor
    · intro h
      by_contra hne
      simp [xmlNodePtrCheck, detachedSentinel, hne] at h
    · intro h
      simp [xmlNodePtrCheck, detachedSentinel, h]
  · intro h
    have hc : xmlNodePtrCheck n.parent = true := by
      simp [xmlNodePtrCheck, h, NULL_ptr, detachedSentinel]
    simp [xmlUnlinkNodeWithCheck, hc]

/-- C10 witness: the check rejects -1, accepts NULL, and a NULL-parent
node is unlinked with a true return. -/
theorem c10_null_parent_treated_attached_witness :
    (xmlNodePtrCheck 0 = false ↔ (0 : Int) = -1) ∧
    ((0 : Int) = NULL_ptr ∧
      (xmlUnlinkNodeWithCheck ⟨0⟩).1 = true ∧
      (xmlUnlinkNodeWithCheck ⟨0⟩).2.2 = [UEv.unlinked]) :=
  ⟨(c10_null_parent_treated_attached 0 ⟨0⟩).1,
    by decide, (c10_null_parent_treated_attached 0 ⟨0⟩).2.2 (by decide)⟩

/-- strncpy writes exactly n bytes into the destination region. -/
theorem strncpyBytes_length (src : List Char) (n : Nat) :
    (strncpyBytes src n).length = n := by
  simp [strncpyBytes]
  omega

/-- C1: xmlParse resets the global error state before parsing (the trace
starts with the reset, then the read); it reads the last error iff the
parse returned a NULL document; it writes the truncated, NUL-terminated
message into the caller's buffer exactly when the document is NULL, an
error exists, the buffer is non-NULL, the severity is at least
XML_ERR_ERROR and a message exists (writing at most capacity-1 message
bytes plus a terminator, so the capacity is preserved), and leaves the
buffer untouched in every other case. -/
theorem c1_xmlParse_error_contract (env : ParseEnv) (b? : Option (List Char)) :
    (xmlParse env b?).2.2.take 2 = [PEv.resetLastError, PEv.readMemory] ∧
    (PEv.getLastError ∈ (xmlParse env b?).2.2 ↔ (xmlParse env b?).1 = none) ∧
    (∀ b e m, b? = some b → env.readMemory = none → env.lastError = some e →
      XML_ERR_ERROR ≤ e.level → e.message = some m →
      (xmlParse env b?).2.1 = some (strncpyBytes m (b.length - 1) ++ [cNul]) ∧
      (0 < b.length →
        (strncpyBytes m (b.length - 1) ++ [cNul]).length = b.length)) ∧
    ((env.readMemory ≠ none ∨ b? = none ∨ env.lastError = none ∨
        (∃ e, env.lastError = some e ∧
          (e.level < XML_ERR_ERROR ∨ e.message = none))) →
      (xmlParse env b?).2.1 = b?) := by
  refine ⟨?_, ?_, ?_, ?_⟩
  · cases hrm : env.readMemory <;> simp [xmlParse, hrm]
  · cases hrm : env.readMemory <;> simp [xmlParse, hrm]
  · rintro b e m rfl hrm he hlev hm
    constructor
    · simp [xmlParse, hrm, he, hm, hlev, strncpyTerm]
    · intro hb
      rw [List.length_append, strncpyBytes_length]
      simp
      omega
  · intro hcase
    rcases hcase with h | h | h | ⟨e, he, hbad⟩
    · obtain ⟨d, hd⟩ := Option.ne_none_iff_exists'.mp h
      simp [xmlParse, hd]
    · subst h
      cases hrm : env.readMemory with
      | some d => simp [xmlParse, hrm]
      | none =>
        cases hle : env.lastError <;> simp [xmlParse, hrm, hle]
    · cases hrm : env.readMemory with
      | some d => simp [xmlParse, hrm]
      | none => simp [xmlParse, hrm, h]
    · cases hrm : env.readMemory with
      | some d => simp [xmlParse, hrm]
      | none =>
        cases b? with
        | none => simp [xmlParse, hrm, he]
        | some b =>
          rcases hbad with hlev | hm
          · have hnle : ¬ XML_ERR_ERROR ≤ e.level := not_le.mpr hlev
            simp [xmlParse, hrm, he, hnle]
          · simp [xmlParse, hrm, he, hm]

/-- C1 witness: a failing parse with a level-2 error whose message is
"bad", a 5-byte caller buffer: xmlParse stores the message, NUL-padded
and NUL-terminated, preserving the capacity. -/
theorem c1_xmlParse_error_contract_witness :
    (xmlParse ⟨none, some ⟨2, some ['b', 'a', 'd']⟩⟩
        (some ['x', 'y', 'z', 'w', 'v'])).2.1 =
      some ['b', 'a', 'd', cNul, cNul] := by
  have h := (c1_xmlParse_error_contract ⟨none, some ⟨2, some ['b', 'a', 'd']⟩⟩
      (some ['x', 'y', 'z', 'w', 'v'])).2.2.1 ['x', 'y', 'z', 'w', 'v']
      ⟨2, some ['b', 'a', 'd']⟩ ['b', 'a', 'd'] rfl rfl rfl (by decide) rfl
  rw [h.1]
  decide

/-- C7: parseFragmentInContext returns NULL iff the library's fragment
parse returned a non-OK code; the caller's error buffer is untouched in
every case; on a non-OK code the diagnostic is only printed; on OK the
parsed fragment root is returned and nothing is printed. -/
theorem c7_fragment_parse_contract (doc : Nat) (env : CtxFragEnv)
    (b? : Option (List Char)) :
    ((xmlParseFragment doc env b?).1 = none ↔ env.errCode ≠ XML_ERR_OK) ∧
    (xmlParseFragment doc env b?).2.1 = b? ∧
    (env.errCode ≠ XML_ERR_OK →
      (xmlParseFragment doc env b?).2.2 = [CFEv.printErr env.errCode]) ∧
    (env.errCode = XML_ERR_OK →
      (xmlParseFragment doc env b?).1 = some env.rootElement ∧
      (xmlParseFragment doc env b?).2.2 = []) := by
  by_cases h : env.errCode = XML_ERR_OK <;> simp [xmlParseFragment, h]

/-- C7 witness: code 1 yields NULL with only a printed diagnostic and the
buffer untouched; code 0 yields the root node 9. -/
theorem c7_fragment_parse_contract_witness :
    ((1 : Nat) ≠ XML_ERR_OK ∧
      (xmlParseFragment 0 ⟨1, 9⟩ (some ['x'])).2.2 = [CFEv.printErr 1] ∧
      (xmlParseFragment 0 ⟨1, 9⟩ (some ['x'])).2.1 = some ['x']) ∧
    ((0 : Nat) = XML_ERR_OK ∧
      (xmlParseFragment 0 ⟨0, 9⟩ (some ['x'])).1 = some 9) :=
  ⟨⟨by decide, (c7_fragment_parse_contract 0 ⟨1, 9⟩ (some ['x'])).2.2.1 (by decide),
      (c7_fragment_parse_contract 0 ⟨1, 9⟩ (some ['x'])).2.1⟩,
    ⟨rfl, ((c7_fragment_parse_contract 0 ⟨0, 9⟩ (some ['x'])).2.2.2 rfl).1⟩⟩

/-- C6: parseFragmentAsStandaloneDoc returns NULL exactly when the
temporary parse produced no document or a document with no root element
(the empty-buffer case falls under these); otherwise it deep-copies
(extended = 1) the root into the target document, frees the temporary
document afterwards, and returns the copy. -/
theorem c6_fragment_as_doc_contract (doc : Nat) (env : FragDocEnv) :
    ((xmlParseFragmentAsDoc doc env).1 = none ↔
      env.readMemory = none ∨ ∃ t, env.readMemory = some t ∧ t.root = none) ∧
    (∀ t r, env.readMemory = some t → t.root = some r →
      (xmlParseFragmentAsDoc doc env).1 = some env.copyResult ∧
      (xmlParseFragmentAsDoc doc env).2 =
        [FEv.readMemory, FEv.getRootElement, FEv.copyNode r doc 1,
         FEv.freeDoc]) := by
  constructor
  · cases hrm : env.readMemory with
    | none => simp [xmlParseFragmentAsDoc, hrm]
    | some t =>
      cases hr : t.root with
      | none => simp [xmlParseFragmentAsDoc, hrm, hr]
      | some r => simp [xmlParseFragmentAsDoc, hrm, hr]
  · rintro t r hrm hr
    simp [xmlParseFragmentAsDoc, hrm, hr]

/-- C6 witness: a rootless temporary document yields NULL; a temporary
document with root 5 yields the copy (node 8) with the deep-copy and
free events in order. -/
theorem c6_fragment_as_doc_contract_witness :
    (xmlParseFragmentAsDoc 4 ⟨some ⟨none⟩, 8⟩).1 = none ∧
    ((some (⟨some 5⟩ : TmpDoc) : Option TmpDoc) = some ⟨some 5⟩ ∧
      (xmlParseFragmentAsDoc 4 ⟨some ⟨some 5⟩, 8⟩).1 = some 8 ∧
      (xmlParseFragmentAsDoc 4 ⟨some ⟨some 5⟩, 8⟩).2 =
        [FEv.readMemory, FEv.getRootElement, FEv.copyNode 5 4 1,
         FEv.freeDoc]) :=
  ⟨(c6_fragment_as_doc_contract 4 ⟨some ⟨none⟩, 8⟩).1.mpr
      (Or.inr ⟨⟨none⟩, rfl, rfl⟩),
    ⟨rfl, (c6_fragment_as_doc_contract 4 ⟨some ⟨some 5⟩, 8⟩).2 ⟨some 5⟩ 5 rfl rfl⟩⟩

/-- C3: if encoding the content fails (the encoder returns NULL),
setContent leaves the node completely unmodified and produces no events:
no child is unlinked, no removal callback fires, the content is
unchanged, and no error is surfaced (the function returns nothing). -/
theorem c3_setContent_encoding_failure (g : Nat) (node : SCNode)
    (content : List Char) (encoder : List Char → Option (List Char))
    (hfail : encoder content = none) :
    xmlSetContent g node content encoder = (node, []) := by
  simp [xmlSetContent, hfail]

/-- C3 witness: a failing encoder on a node with two children and content
x leaves the node exactly as it was, with an empty event trace. -/
theorem c3_setContent_encoding_failure_witness :
    ((fun _ : List Char => (none : Option (List Char))) ['y'] = none) ∧
    xmlSetContent 3 ⟨[1, 2], ['x']⟩ ['y'] (fun _ => none) =
      (⟨[1, 2], ['x']⟩, []) :=
  ⟨rfl, c3_setContent_encoding_failure 3 ⟨[1, 2], ['x']⟩ ['y']
      (fun _ => none) rfl⟩

/-- The teardown loop notifies the host exactly once per child, in
document order, passing the opaque host handle. -/
theorem childTeardown_filterMap (g : Nat) (cs : List Nat) :
    (childTeardown g cs).filterMap callbackOf = cs.map (fun c => (c, g)) := by
  induction cs with
  | nil => rfl
  | cons c cs ih => simp [childTeardown, callbackOf, ih]

/-- The teardown loop never frees a child node. -/
theorem freeChild_not_mem_childTeardown (g : Nat) (cs : List Nat) (c : Nat) :
    SCEv.freeChildNode c ∉ childTeardown g cs := by
  induction cs with
  | nil => simp [childTeardown]
  | cons d cs ih => simp [childTeardown, ih]

/-- C4: when encoding succeeds, setContent unlinks every existing child in
document order, invokes the removal callback exactly once per removed
child with the opaque host handle, never frees a child, leaves the node
with zero children, sets the content to the XML-escaped form of the input
(the trace shows the content assignment after all removals), and frees
the temporary encoded buffer last; escaping turns the three characters of
the example input into the expected entity form. -/
theorem c4_setContent_success (g : Nat) (node : SCNode) (content : List Char)
    (encoder : List Char → Option (List Char))
    (hok : encoder content = some (xmlEncodeSpecialChars content)) :
    (xmlSetContent g node content encoder).1.children = [] ∧
    (xmlSetContent g node content encoder).1.content =
      xmlEncodeSpecialChars content ∧
    (xmlSetContent g node content encoder).2 =
      childTeardown g node.children ++
        [SCEv.setContentEv (xmlEncodeSpecialChars content),
         SCEv.freeEncoded] ∧
    (xmlSetContent g node content encoder).2.filterMap callbackOf =
      node.children.map (fun c => (c, g)) ∧
    (∀ c, SCEv.freeChildNode c ∉ (xmlSetContent g node content encoder).2) ∧
    xmlEncodeSpecialChars ['<', 'a', '>'] =
      ['&', 'l', 't', ';', 'a', '&', 'g', 't', ';'] := by
  have htr : (xmlSetContent g node content encoder).2 =
      childTeardown g node.children ++
        [SCEv.setContentEv (xmlEncodeSpecialChars content),
         SCEv.freeEncoded] := by
    simp [xmlSetContent, hok]
  refine ⟨by simp [xmlSetContent, hok], by simp [xmlSetContent, hok], htr,
    ?_, ?_, by decide⟩
  · rw [htr, List.filterMap_append, childTeardown_filterMap]
    simp [callbackOf]
  · intro c
    rw [htr]
    simp [callbackOf, freeChild_not_mem_childTeardown]

/-- C4 witness: node with children 1, 2 and content o; input content
"<a>": both children are reported to the host with handle 9, and the
final content is the escaped form. -/
theorem c4_setContent_success_witness :
    ((fun s => some (xmlEncodeSpecialChars s)) ['<', 'a', '>'] =
      some (xmlEncodeSpecialChars ['<', 'a', '>'])) ∧
    (xmlSetContent 9 ⟨[1, 2], ['o']⟩ ['<', 'a', '>']
        (fun s => some (xmlEncodeSpecialChars s))).2.filterMap callbackOf =
      [(1, 9), (2, 9)] ∧
    (xmlSetContent 9 ⟨[1, 2], ['o']⟩ ['<', 'a', '>']
        (fun s => some (xmlEncodeSpecialChars s))).1.content =
      ['&', 'l', 't', ';', 'a', '&', 'g', 't', ';'] := by
  have h := c4_setContent_success 9 ⟨[1, 2], ['o']⟩ ['<', 'a', '>']
      (fun s => some (xmlEncodeSpecialChars s)) rfl
  refine ⟨rfl, ?_, ?_⟩
  · rw [h.2.2.2.1]
    rfl
  · rw [h.2.1]
    exact h.2.2.2.2.2

/-- Escaped output never contains a raw left angle bracket or quote. -/
theorem encodeSpecialChar_no_lt_quot (a : Char) :
    (encodeSpecialChar a).all (fun c => !(c = '<') && !(c = '"')) = true := by
  unfold encodeSpecialChar
  split_ifs with h1 h2 h3 h4 h5
  · decide
  · decide
  · decide
  · decide
  · decide
  · simp [h1, h4]

/-- Escaped strings never contain a raw left angle bracket or quote. -/
theorem esc_all_no_lt_quot (s : List Char) :
    (xmlEncodeSpecialChars s).all (fun c => !(c = '<') && !(c = '"')) = true := by
  induction s with
  | nil => rfl
  | cons a s ih =>
      have hstep : xmlEncodeSpecialChars (a :: s) =
          encodeSpecialChar a ++ xmlEncodeSpecialChars s := by
        simp [xmlEncodeSpecialChars]
      rw [hstep, List.all_append]
      simp only [encodeSpecialChar_no_lt_quot, ih, Bool.and_self]

/-- Membership form of the previous lemma. -/
theorem esc_mem_ne {s : List Char} {c : Char}
    (h : c ∈ xmlEncodeSpecialChars s) : ¬c = '<' ∧ ¬c = '"' := by
  have hall := esc_all_no_lt_quot s
  rw [List.all_eq_true] at hall
  have h2 := hall c h
  simp at h2
  exact h2

/-- Escaping one character yields at least one character. -/
theorem encodeSpecialChar_length_pos (a : Char) :
    1 ≤ (encodeSpecialChar a).length := by
  unfold encodeSpecialChar
  split_ifs <;> simp

/-- Escaping does not shrink a string. -/
theorem esc_length_ge (s : List Char) :
    s.length ≤ (xmlEncodeSpecialChars s).length := by
  induction s with
  | nil => simp [xmlEncodeSpecialChars]
  | cons a s ih =>
      have hstep : xmlEncodeSpecialChars (a :: s) =
          encodeSpecialChar a ++ xmlEncodeSpecialChars s := by
        simp [xmlEncodeSpecialChars]
      rw [hstep]
      have := encodeSpecialChar_length_pos a
      simp only [List.length_append, List.length_cons]
      omega

/-- Entity equations used when walking an escaped string. -/
theorem unescEntity_lt (r : List Char) :
    unescEntity ('l' :: 't' :: ';' :: r) = some ('<', r) := rfl

theorem unescEntity_gt (r : List Char) :
    unescEntity ('g' :: 't' :: ';' :: r) = some ('>', r) := rfl

theorem unescEntity_amp (r : List Char) :
    unescEntity ('a' :: 'm' :: 'p' :: ';' :: r) = some ('&', r) := rfl

theorem unescEntity_quot (r : List Char) :
    unescEntity ('q' :: 'u' :: 'o' :: 't' :: ';' :: r) = some ('"', r) := rfl

theorem unescEntity_cr (r : List Char) :
    unescEntity ('#' :: '1' :: '3' :: ';' :: r) = some (Char.ofNat 13, r) := rfl

/-- Entity decoding inverts escaping, given fuel at least the number of
decoded characters. -/
theorem unescapeFuel_esc (s : List Char) :
    ∀ fuel, s.length ≤ fuel →
      unescapeFuel fuel (xmlEncodeSpecialChars s) = s := by
  induction s with
  | nil =>
      intro fuel hf
      cases fuel <;> simp [xmlEncodeSpecialChars, unescapeFuel]
  | cons a s ih =>
      intro fuel hf
      obtain ⟨f, rfl⟩ : ∃ f, fuel = f + 1 :=
        ⟨fuel - 1, by simp at hf; omega⟩
      have hf' : s.length ≤ f := by simp at hf; omega
      have hstep : xmlEncodeSpecialChars (a :: s) =
          encodeSpecialChar a ++ xmlEncodeSpecialChars s := by
        simp [xmlEncodeSpecialChars]
      rw [hstep]
      by_cases h1 : a = '<'
      · subst h1
        rw [show encodeSpecialChar '<' = ['&', 'l', 't', ';'] from by decide]
        simp only [List.cons_append, List.nil_append, unescapeFuel,
          unescEntity_lt, if_pos]
        simp only [List.append_eq, List.cons_append, List.nil_append]
        rw [unescEntity_lt]
        simp [ih f hf']
      by_cases h2 : a = '>'
      · subst h2
        rw [show encodeSpecialChar '>' = ['&', 'g', 't', ';'] from by decide]
        simp only [List.cons_append, List.nil_append, unescapeFuel,
          unescEntity_gt, if_pos]
        simp only [List.append_eq, List.cons_append, List.nil_append]
        rw [unescEntity_gt]
        simp [ih f hf']
      by_cases h3 : a = '&'
      · subst h3
        rw [show encodeSpecialChar '&' = ['&', 'a', 'm', 'p', ';'] from by decide]
        simp only [List.cons_append, List.nil_append, unescapeFuel,
          unescEntity_amp, if_pos]
        simp only [List.append_eq, List.cons_append, List.nil_append]
        rw [unescEntity_amp]
        simp [ih f hf']
      by_cases h4 : a = '"'
      · subst h4
        rw [show encodeSpecialChar '"' = ['&', 'q', 'u', 'o', 't', ';'] from by decide]
        simp only [List.cons_append, List.nil_append, unescapeFuel,
          unescEntity_quot, if_pos]
        simp only [List.append_eq, List.cons_append, List.nil_append]
        rw [unescEntity_quot]
        simp [ih f hf']
      by_cases h5 : a = Char.ofNat 13
      · subst h5
        rw [show encodeSpecialChar (Char.ofNat 13) = ['&', '#', '1', '3', ';']
          from by decide]
        simp only [List.cons_append, List.nil_append, unescapeFuel,
          unescEntity_cr, if_pos]
        simp only [List.append_eq, List.cons_append, List.nil_append]
        rw [unescEntity_cr]
        simp [ih f hf']
      · rw [show encodeSpecialChar a = [a] from by
          simp [encodeSpecialChar, h1, h2, h3, h4, h5]]
        simp only [List.cons_append, List.nil_append, unescapeFuel]
        rw [if_neg h3]
        simp [ih f hf']

/-- Entity decoding with the default fuel inverts escaping. -/
theorem unescapeX_esc (s : List Char) :
    unescapeX (xmlEncodeSpecialChars s) = s :=
  unescapeFuel_esc s (xmlEncodeSpecialChars s).length (esc_length_ge s)

/-- takeWhile over a satisfying run followed by a failing head stops
exactly at the boundary. -/
theorem takeWhile_append_stop (p : Char → Bool) (xs ys : List Char)
    (hxs : ∀ c ∈ xs, p c = true)
    (hys : ∀ c tl, ys = c :: tl → p c = false) :
    (xs ++ ys).takeWhile p = xs := by
  rw [List.takeWhile_append_of_pos hxs]
  cases ys with
  | nil => simp
  | cons y tl =>
      rw [List.takeWhile_cons_of_neg (by simp [hys y tl rfl])]
      simp

/-- dropWhile over a satisfying run followed by a failing head drops
exactly the run. -/
theorem dropWhile_append_stop (p : Char → Bool) (xs ys : List Char)
    (hxs : ∀ c ∈ xs, p c = true)
    (hys : ∀ c tl, ys = c :: tl → p c = false) :
    (xs ++ ys).dropWhile p = ys := by
  rw [List.dropWhile_append_of_pos hxs]
  cases ys with
  | nil => simp
  | cons y tl =>
      rw [List.dropWhile_cons_of_neg (by simp [hys y tl rfl])]

/-- Dropping an exact run that is actually there succeeds. -/
theorem dropExact_append (h l : List Char) : dropExact h (h ++ l) = some l := by
  induction h with
  | nil => rfl
  | cons c hs ih => simp [dropExact, ih]

/-- Serializing an attribute list never shrinks it below one character
per attribute. -/
theorem serAttrs_length_ge (attrs : List (List Char × List Char)) :
    attrs.length ≤ (serAttrs attrs).length := by
  induction attrs with
  | nil => simp [serAttrs]
  | cons a as ih =>
      obtain ⟨k, v⟩ := a
      simp only [serAttrs, List.length_cons, List.length_append]
      omega

/-- A serialized element always starts with a left angle bracket. -/
theorem serTree_elem_shape (n : List Char) (a : List (List Char × List Char))
    (ks : List XTree) : ∃ tl, serTree (XTree.elem n a ks) = '<' :: tl := by
  cases ks with
  | nil => exact ⟨n ++ serAttrs a ++ ['/', '>'], by simp [serTree]⟩
  | cons k ks =>
      exact ⟨n ++ serAttrs a ++ '>' ::
        (serKids (k :: ks) ++ '<' :: '/' :: (n ++ ['>'])), by simp [serTree]⟩

/-- The kid-list parser does not stop on a character other than the left
angle bracket. -/
theorem stopKids_false_head (c : Char) (tl : List Char) (hc : ¬c = '<') :
    stopKids (c :: tl) = false := by
  cases tl <;> simp [stopKids, hc]

/-- The kid-list parser does not stop on a start tag. -/
theorem stopKids_false_two (d : Char) (tl : List Char) (hd : ¬d = '/') :
    stopKids ('<' :: d :: tl) = false := by
  simp [stopKids, hd]

/-- The kid-list parser stops on an end-tag opener. -/
theorem stopKids_end_tag (tl : List Char) :
    stopKids ('<' :: '/' :: tl) = true := by
  simp [stopKids]

/-- A well-formed text node has non-empty content. -/
theorem wfTree_text_unpack {s : List Char}
    (h : wfTree (XTree.text s) = true) : s ≠ [] := by
  simp [wfTree] at h
  intro hs
  subst hs
  simp at h

/-- Unpacking well-formedness of an element. -/
theorem wfTree_elem_unpack {n : List Char}
    {a : List (List Char × List Char)} {kids : List XTree}
    (h : wfTree (XTree.elem n a kids) = true) :
    validName n = true ∧ a.all validAttr = true ∧ wfKids kids = true := by
  simp only [wfTree, Bool.and_eq_true] at h
  exact ⟨h.1.1, h.1.2, h.2⟩

/-- Unpacking well-formedness of a non-empty kid list. -/
theorem wfKids_cons_unpack {k : XTree} {ks : List XTree}
    (h : wfKids (k :: ks) = true) :
    wfTree k = true ∧ wfKids ks = true := by
  cases ks with
  | nil => exact ⟨by simpa [wfKids] using h, by simp [wfKids]⟩
  | cons k2 ks2 =>
      simp [wfKids] at h
      exact ⟨h.1.1, h.2⟩

/-- Two adjacent kids are never both text nodes in a well-formed list. -/
theorem wfKids_adj {k k2 : XTree} {ks : List XTree}
    (h : wfKids (k :: k2 :: ks) = true) :
    isTextNode k = false ∨ isTextNode k2 = false := by
  simp [wfKids] at h
  exact h.1.2

/-- Every tree has at least one node. -/
theorem nodeCount_pos (t : XTree) : 1 ≤ nodeCount t := by
  cases t <;> simp [nodeCount]

/-- The attribute parser inverts attribute serialization, for any valid
attribute list, enough fuel, and a remainder starting with the slash or
right angle bracket that follows attributes in a tag. -/
theorem parseAttrs_ser (attrs : List (List Char × List Char)) :
    ∀ (fuel : Nat) (rest : List Char), attrs.length < fuel →
      attrs.all validAttr = true →
      (∀ c tl, rest = c :: tl → c = '/' ∨ c = '>') →
      parseAttrs fuel (serAttrs attrs ++ rest) = some (attrs, rest) := by
  induction attrs with
  | nil =>
      intro fuel rest hf hv hr
      obtain ⟨f, rfl⟩ : ∃ f, fuel = f + 1 := ⟨fuel - 1, by omega⟩
      cases rest with
      | nil => simp [serAttrs, parseAttrs]
      | cons c tl =>
          rcases hr c tl rfl with rfl | rfl
          · simp [serAttrs, parseAttrs]
          · simp [serAttrs, parseAttrs]
  | cons a as ih =>
      intro fuel rest hf hv hr
      obtain ⟨k, v⟩ := a
      obtain ⟨f, rfl⟩ : ∃ f, fuel = f + 1 := ⟨fuel - 1, by omega⟩
      simp only [List.all_cons, Bool.and_eq_true] at hv
      have hkname : k.isEmpty = false ∧ k.all validNameChar = true := by
        have := hv.1
        simp only [validAttr, validName, Bool.and_eq_true,
          Bool.not_eq_true'] at this
        exact ⟨this.1.1, this.1.2⟩
      have hkall : ∀ c ∈ k, validNameChar c = true :=
        fun c hc => List.all_eq_true.mp hkname.2 c hc
      have hvall : ∀ c ∈ xmlEncodeSpecialChars v, (!(c = '"')) = true := by
        intro c hc
        simp [(esc_mem_ne hc).2]
      have hys1 : ∀ c tl, ('=' :: '"' :: (xmlEncodeSpecialChars v ++ '"' ::
          (serAttrs as ++ rest))) = c :: tl → validNameChar c = false := by
        intro c tl h
        injection h with h1 h2
        subst h1
        decide
      have hys2 : ∀ c tl, ('"' :: (serAttrs as ++ rest)) = c :: tl →
          (!(c = '"')) = false := by
        intro c tl h
        injection h with h1 h2
        subst h1
        decide
      have htk := takeWhile_append_stop validNameChar k
        ('=' :: '"' :: (xmlEncodeSpecialChars v ++ '"' ::
          (serAttrs as ++ rest))) hkall hys1
      have htd := dropWhile_append_stop validNameChar k
        ('=' :: '"' :: (xmlEncodeSpecialChars v ++ '"' ::
          (serAttrs as ++ rest))) hkall hys1
      have hvk := takeWhile_append_stop (fun x => !(x = '"'))
        (xmlEncodeSpecialChars v) ('"' :: (serAttrs as ++ rest)) hvall hys2
      have hvd := dropWhile_append_stop (fun x => !(x = '"'))
        (xmlEncodeSpecialChars v) ('"' :: (serAttrs as ++ rest)) hvall hys2
      have hrec := ih f rest (by simp at hf; omega) hv.2 hr
      simp only [serAttrs, List.cons_append, List.append_assoc]
      simp [parseAttrs, htk, htd, hvk, hvd, hrec, hkname.1, unescapeX_esc]

/-- An escaped non-empty string starts with a character other than the
left angle bracket. -/
theorem esc_head (s : List Char) (hs : s ≠ []) :
    ∃ c0 tl, xmlEncodeSpecialChars s = c0 :: tl ∧ ¬c0 = '<' := by
  cases hE : xmlEncodeSpecialChars s with
  | nil =>
      exfalso
      have hlen := esc_length_ge s
      rw [hE] at hlen
      simp at hlen
      exact hs hlen
  | cons c0 tl =>
      refine ⟨c0, tl, rfl, ?_⟩
      have hmem : c0 ∈ xmlEncodeSpecialChars s := by rw [hE]; simp
      exact (esc_mem_ne hmem).1

/-- A serialized element is a left angle bracket, the name, then more. -/
theorem serTree_elem_eq (n : List Char) (a : List (List Char × List Char))
    (ks : List XTree) :
    ∃ w, serTree (XTree.elem n a ks) = '<' :: (n ++ w) := by
  cases ks with
  | nil => exact ⟨serAttrs a ++ ['/', '>'], by simp [serTree]⟩
  | cons k ks' =>
      exact ⟨serAttrs a ++ '>' :: (serKids (k :: ks') ++
        '<' :: '/' :: (n ++ ['>'])), by simp [serTree]⟩

/-- Whatever follows a serialized attribute list inside a tag does not
start with a name character, provided the remainder does not. -/
theorem serAttrs_head_not_name (a : List (List Char × List Char))
    (Y : List Char)
    (hY : ∀ c tl, Y = c :: tl → validNameChar c = false) :
    ∀ c tl, (serAttrs a ++ Y) = c :: tl → validNameChar c = false := by
  cases a with
  | nil => simpa [serAttrs] using hY
  | cons p as =>
      obtain ⟨k, v⟩ := p
      intro c tl h
      simp only [serAttrs, List.cons_append] at h
      injection h with h1 _
      subst h1
      decide

/-- The kid-list parser, given a parser for single nodes that inverts
serialization on trees of at most N nodes, inverts kid-list
serialization on lists of at most N nodes, provided the remainder is an
end-tag opener and the fuel is enough. -/
theorem parseKids_ser_aux (N : Nat)
    (hnode : ∀ t, nodeCount t ≤ N → ∀ fuel rest, wfTree t = true →
      2 * nodeCount t ≤ fuel →
      (isTextNode t = true → ∃ r2, rest = '<' :: r2) →
      parseNode fuel (serTree t ++ rest) = some (t, rest)) :
    ∀ ks, kidsCount ks ≤ N → ∀ fuel rest, wfKids ks = true →
      2 * kidsCount ks + 1 ≤ fuel →
      (∃ r2, rest = '<' :: '/' :: r2) →
      parseKids fuel (serKids ks ++ rest) = some (ks, rest) := by
  intro ks
  induction ks with
  | nil =>
      intro hN fuel rest hwf hfuel hrest
      obtain ⟨r2, rfl⟩ := hrest
      obtain ⟨f, rfl⟩ : ∃ f, fuel = f + 1 := ⟨fuel - 1, by omega⟩
      simp only [serKids, List.nil_append]
      simp [parseKids, stopKids_end_tag]
  | cons k ks ih =>
      intro hN fuel rest hwf hfuel hrest
      obtain ⟨r2, hr2⟩ := hrest
      obtain ⟨f, rfl⟩ : ∃ f, fuel = f + 1 := ⟨fuel - 1, by omega⟩
      have hwk := wfKids_cons_unpack hwf
      have hnck := nodeCount_pos k
      have hkc : kidsCount (k :: ks) = nodeCount k + kidsCount ks := by
        simp [kidsCount]
      have hstop : stopKids (serTree k ++ (serKids ks ++ rest)) = false := by
        cases k with
        | text s =>
            have hs := wfTree_text_unpack hwk.1
            obtain ⟨c0, tl, hE, hc0⟩ := esc_head s hs
            have hser : serTree (XTree.text s) = c0 :: tl := by
              simp [serTree, hE]
            rw [hser, List.cons_append]
            exact stopKids_false_head c0 _ hc0
        | elem n a ks2 =>
            obtain ⟨w, hw⟩ := serTree_elem_eq n a ks2
            have hn := (wfTree_elem_unpack hwk.1).1
            obtain ⟨n0, n', rfl⟩ : ∃ n0 n', n = n0 :: n' := by
              cases n with
              | nil => simp [validName] at hn
              | cons n0 n' => exact ⟨n0, n', rfl⟩
            have hn0 : validNameChar n0 = true := by
              simp [validName, List.all_cons] at hn
              exact hn.1
            rw [hw]
            simp only [List.cons_append, List.append_assoc]
            refine stopKids_false_two n0 _ ?_
            intro hq
            subst hq
            exact absurd hn0 (by decide)
      have hpn : parseNode f (serTree k ++ (serKids ks ++ rest)) =
          some (k, serKids ks ++ rest) := by
        refine hnode k (by omega) f (serKids ks ++ rest) hwk.1 (by omega) ?_
        intro hk
        cases ks with
        | nil =>
            refine ⟨'/' :: r2, ?_⟩
            simp [serKids, hr2]
        | cons k2 ks2 =>
            have hadj := wfKids_adj hwf
            have hk2 : isTextNode k2 = false := by
              rcases hadj with h | h
              · rw [hk] at h
                simp at h
              · exact h
            obtain ⟨n2, a2, ks3, rfl⟩ : ∃ n2 a2 ks3,
                k2 = XTree.elem n2 a2 ks3 := by
              cases k2 with
              | elem n2 a2 ks3 => exact ⟨n2, a2, ks3, rfl⟩
              | text s2 => simp [isTextNode] at hk2
            obtain ⟨tl, htl⟩ := serTree_elem_shape n2 a2 ks3
            refine ⟨tl ++ (serKids ks2 ++ rest), ?_⟩
            simp [serKids, htl, List.cons_append, List.append_assoc]
      have hpk : parseKids f (serKids ks ++ rest) = some (ks, rest) :=
        ih (by omega) f rest hwk.2 (by omega) ⟨r2, hr2⟩
      simp only [serKids, List.append_assoc]
      simp [parseKids, hstop, hpn, hpk]

/-- The node parser inverts node serialization, for every well-formed
tree, every fuel at least twice the node count, and every remainder that
starts with a left angle bracket whenever the tree is a text node. -/
theorem parseNode_ser_bounded :
    ∀ N t, nodeCount t ≤ N → ∀ fuel rest, wfTree t = true →
      2 * nodeCount t ≤ fuel →
      (isTextNode t = true → ∃ r2, rest = '<' :: r2) →
      parseNode fuel (serTree t ++ rest) = some (t, rest) := by
  intro N
  induction N using Nat.strong_induction_on with
  | _ N ih =>
    intro t hN fuel rest hwf hfuel htext
    cases t with
    | text s =>
        have hs := wfTree_text_unpack hwf
        have hnc : nodeCount (XTree.text s) = 1 := by simp [nodeCount]
        obtain ⟨r2, rfl⟩ := htext rfl
        obtain ⟨f, rfl⟩ : ∃ f, fuel = f + 1 := ⟨fuel - 1, by omega⟩
        obtain ⟨c0, tl, hE, hc0⟩ := esc_head s hs
        have hall : ∀ c ∈ xmlEncodeSpecialChars s, (!(c = '<')) = true := by
          intro c hc
          simp [(esc_mem_ne hc).1]
        have hys : ∀ c t2, ('<' :: r2 : List Char) = c :: t2 →
            (!(c = '<')) = false := by
          intro c t2 h
          injection h with h1 _
          subst h1
          decide
        have htk := takeWhile_append_stop (fun d => !(d = '<'))
          (xmlEncodeSpecialChars s) ('<' :: r2) hall hys
        have htd := dropWhile_append_stop (fun d => !(d = '<'))
          (xmlEncodeSpecialChars s) ('<' :: r2) hall hys
        rw [hE] at htk htd
        simp only [List.cons_append] at htk htd
        have hser : serTree (XTree.text s) = c0 :: tl := by
          simp [serTree, hE]
        rw [hser]
        simp only [List.cons_append, parseNode]
        rw [if_neg hc0]
        rw [htk, htd]
        simp only [List.isEmpty_cons, Bool.false_eq_true, if_false]
        rw [← hE, unescapeX_esc]
    | elem n a kids =>
        have hunp := wfTree_elem_unpack hwf
        obtain ⟨n0, n', rfl⟩ : ∃ n0 n', n = n0 :: n' := by
          cases n with
          | nil => exact absurd hunp.1 (by decide)
          | cons n0 n' => exact ⟨n0, n', rfl⟩
        have hnall : ∀ c ∈ (n0 :: n' : List Char), validNameChar c = true := by
          have hvn := hunp.1
          simp only [validName, Bool.and_eq_true] at hvn
          exact fun c hc => List.all_eq_true.mp hvn.2 c hc
        have hnc : nodeCount (XTree.elem (n0 :: n') a kids) =
            1 + kidsCount kids := by
          simp [nodeCount]
        obtain ⟨f, rfl⟩ : ∃ f, fuel = f + 1 := ⟨fuel - 1, by omega⟩
        cases kids with
        | nil =>
            have hser : serTree (XTree.elem (n0 :: n') a []) =
                '<' :: ((n0 :: n') ++ (serAttrs a ++ ['/', '>'])) := by
              simp [serTree]
            rw [hser]
            simp only [List.cons_append, List.append_assoc,
              List.singleton_append]
            have hY : ∀ c tl, ('/' :: '>' :: rest : List Char) = c :: tl →
                validNameChar c = false := by
              intro c tl h
              injection h with h1 _
              subst h1
              decide
            have hYn := serAttrs_head_not_name a ('/' :: '>' :: rest) hY
            have htk := takeWhile_append_stop validNameChar (n0 :: n')
              (serAttrs a ++ ('/' :: '>' :: rest)) hnall hYn
            have htd := dropWhile_append_stop validNameChar (n0 :: n')
              (serAttrs a ++ ('/' :: '>' :: rest)) hnall hYn
            have hpa := parseAttrs_ser a
              ((serAttrs a ++ ('/' :: '>' :: rest)).length + 1)
              ('/' :: '>' :: rest)
              (by have := serAttrs_length_ge a; simp; omega)
              hunp.2.1
              (fun c tl h => by injection h with h1 _; subst h1; exact Or.inl rfl)
            have hn0 : validNameChar n0 = true := hnall n0 (by simp)
            simp only [List.cons_append] at htk htd hpa
            simp [parseNode, htk, htd, hn0]
            rw [show ((serAttrs a).length + (rest.length + 1 + 1) + 1) =
                ((serAttrs a ++ '/' :: '>' :: rest).length + 1) from by simp]
            rw [hpa]
            simp
        | cons k1 krest =>
            have hser : serTree (XTree.elem (n0 :: n') a (k1 :: krest)) =
                '<' :: ((n0 :: n') ++ (serAttrs a ++ '>' ::
                  (serKids (k1 :: krest) ++
                    '<' :: '/' :: ((n0 :: n') ++ ['>'])))) := by
              simp [serTree]
            rw [hser]
            simp only [List.cons_append, List.append_assoc,
              List.singleton_append]
            have hY : ∀ c tl, ('>' :: (serKids (k1 :: krest) ++
                '<' :: '/' :: ((n0 :: n') ++ '>' :: rest)) : List Char) =
                  c :: tl → validNameChar c = false := by
              intro c tl h
              injection h with h1 _
              subst h1
              decide
            have hYn := serAttrs_head_not_name a _ hY
            have htk := takeWhile_append_stop validNameChar (n0 :: n')
              (serAttrs a ++ ('>' :: (serKids (k1 :: krest) ++
                '<' :: '/' :: ((n0 :: n') ++ '>' :: rest)))) hnall hYn
            have htd := dropWhile_append_stop validNameChar (n0 :: n')
              (serAttrs a ++ ('>' :: (serKids (k1 :: krest) ++
                '<' :: '/' :: ((n0 :: n') ++ '>' :: rest)))) hnall hYn
            have hpa := parseAttrs_ser a
              ((serAttrs a ++ ('>' :: (serKids (k1 :: krest) ++
                '<' :: '/' :: ((n0 :: n') ++ '>' :: rest)))).length + 1)
              ('>' :: (serKids (k1 :: krest) ++
                '<' :: '/' :: ((n0 :: n') ++ '>' :: rest)))
              (by have := serAttrs_length_ge a; simp; omega)
              hunp.2.1
              (fun c tl h => by injection h with h1 _; subst h1; exact Or.inr rfl)
            have hNpos : 1 ≤ N := by omega
            have hnode1 : ∀ t2, nodeCount t2 ≤ N - 1 →
                ∀ fuel2 rest2, wfTree t2 = true →
                  2 * nodeCount t2 ≤ fuel2 →
                  (isTextNode t2 = true → ∃ r2, rest2 = '<' :: r2) →
                  parseNode fuel2 (serTree t2 ++ rest2) = some (t2, rest2) :=
              ih (N - 1) (by omega)
            have hpk := parseKids_ser_aux (N - 1) hnode1 (k1 :: krest)
              (by omega) f ('<' :: '/' :: ((n0 :: n') ++ '>' :: rest))
              hunp.2.2 (by omega) ⟨(n0 :: n') ++ '>' :: rest, rfl⟩
            have hY2 : ∀ c tl, ('>' :: rest : List Char) = c :: tl →
                validNameChar c = false := by
              intro c tl h
              injection h with h1 _
              subst h1
              decide
            have htk2 := takeWhile_append_stop validNameChar (n0 :: n')
              ('>' :: rest) hnall hY2
            have htd2 := dropWhile_append_stop validNameChar (n0 :: n')
              ('>' :: rest) hnall hY2
            have hn0 : validNameChar n0 = true := hnall n0 (by simp)
            simp only [List.cons_append] at htk htd hpa hpk htk2 htd2
            simp [parseNode, htk, htd, hn0]
            rw [show ((serAttrs a).length + ((serKids (k1 :: krest)).length +
                  (n'.length + (rest.length + 1) + 1 + 1 + 1) + 1) + 1) =
                ((serAttrs a ++ '>' :: (serKids (k1 :: krest) ++
                  '<' :: '/' :: n0 :: (n' ++ '>' :: rest))).length + 1) from by
                simp]
            rw [hpa]
            simp [hpk, htk2, htd2, hn0]

/-- A serialized kid list is at least as long as its node count, given
the same property for single nodes of at most N nodes. -/
theorem serKids_length_ge_aux (N : Nat)
    (hnode : ∀ t, nodeCount t ≤ N → wfTree t = true →
      nodeCount t ≤ (serTree t).length) :
    ∀ ks, kidsCount ks ≤ N → wfKids ks = true →
      kidsCount ks ≤ (serKids ks).length := by
  intro ks
  induction ks with
  | nil =>
      intro _ _
      simp [kidsCount, serKids]
  | cons k ks ih =>
      intro hN hwf
      have hwk := wfKids_cons_unpack hwf
      have hkc : kidsCount (k :: ks) = nodeCount k + kidsCount ks := by
        simp [kidsCount]
      have hp := nodeCount_pos k
      have h1 := hnode k (by omega) hwk.1
      have h2 := ih (by omega) hwk.2
      have hsk : serKids (k :: ks) = serTree k ++ serKids ks := by
        simp [serKids]
      rw [hsk, hkc, List.length_append]
      omega

/-- A serialized well-formed tree is at least as long as its node count
(each node contributes at least one character). -/
theorem serTree_length_ge :
    ∀ N t, nodeCount t ≤ N → wfTree t = true →
      nodeCount t ≤ (serTree t).length := by
  intro N
  induction N using Nat.strong_induction_on with
  | _ N ih =>
    intro t hN hwf
    cases t with
    | text s =>
        have hs := wfTree_text_unpack hwf
        have h1 : 1 ≤ s.length := by
          cases s with
          | nil => exact absurd rfl hs
          | cons c cs => simp
        have h2 := esc_length_ge s
        have hser : serTree (XTree.text s) = xmlEncodeSpecialChars s := by
          simp [serTree]
        rw [hser]
        have hnc : nodeCount (XTree.text s) = 1 := by simp [nodeCount]
        omega
    | elem n a kids =>
        have hunp := wfTree_elem_unpack hwf
        have hnc : nodeCount (XTree.elem n a kids) = 1 + kidsCount kids := by
          simp [nodeCount]
        have hNpos : 1 ≤ N := by have := nodeCount_pos (XTree.elem n a kids); omega
        have hkids := serKids_length_ge_aux (N - 1)
          (fun t2 h2 hw2 => ih (N - 1) (by omega) t2 h2 hw2) kids
          (by omega) hunp.2.2
        cases kids with
        | nil =>
            have hser : serTree (XTree.elem n a []) =
                '<' :: (n ++ serAttrs a ++ ['/', '>']) := by
              simp [serTree]
            rw [hser, hnc]
            simp [kidsCount]
        | cons k1 krest =>
            have hser : serTree (XTree.elem n a (k1 :: krest)) =
                '<' :: (n ++ serAttrs a ++ '>' ::
                  (serKids (k1 :: krest) ++ '<' :: '/' :: (n ++ ['>']))) := by
              simp [serTree]
            rw [hser, hnc]
            simp only [List.length_cons, List.length_append]
            omega

/-- Re-parsing the library dump of a well-formed document yields exactly
the original document tree. -/
theorem xmlReadMemoryM_dump (d : XTree) (h : wellFormedDoc d = true) :
    xmlReadMemoryM (xmlDocDumpToStringM d) = some d := by
  obtain ⟨n, a, kids, rfl⟩ : ∃ n a kids, d = XTree.elem n a kids := by
    cases d with
    | elem n a kids => exact ⟨n, a, kids, rfl⟩
    | text s => simp [wellFormedDoc] at h
  have hwf : wfTree (XTree.elem n a kids) = true := by
    simpa [wellFormedDoc] using h
  have hbound := serTree_length_ge (nodeCount (XTree.elem n a kids))
    (XTree.elem n a kids) le_rfl hwf
  have hnode := parseNode_ser_bounded (nodeCount (XTree.elem n a kids))
    (XTree.elem n a kids) le_rfl
    (2 * (serTree (XTree.elem n a kids) ++ ['\n']).length + 2) ['\n'] hwf
    (by simp only [List.length_append, List.length_cons, List.length_nil]
        omega)
    (by intro hx; simp [isTextNode] at hx)
  unfold xmlReadMemoryM xmlDocDumpToStringM
  rw [dropExact_append]
  have hnode2 : parseNode (2 * ((serTree (XTree.elem n a kids)).length + 1) + 2)
      (serTree (XTree.elem n a kids) ++ ['\n']) =
      some (XTree.elem n a kids, ['\n']) := by
    simpa using hnode
  simp [hnode2]

/-- C9: for every well-formed document with ASCII content, serializing it
(xmlDocDumpToString model) and re-parsing the resulting string
(xmlReadMemory model, as xmlParse calls it with default options) yields
a non-null document — in fact the original tree — so the
element/attribute structure of the result equals that of the original. -/
theorem c9_serialize_reparse_roundtrip (d : XTree)
    (h : wellFormedDoc d = true) :
    xmlReadMemoryM (xmlDocDumpToStringM d) ≠ none ∧
    xmlReadMemoryM (xmlDocDumpToStringM d) = some d ∧
    (xmlReadMemoryM (xmlDocDumpToStringM d)).map elemAttrStructure =
      some (elemAttrStructure d) := by
  have hr := xmlReadMemoryM_dump d h
  rw [hr]
  exact ⟨by simp, rfl, rfl⟩

/-- C9 witness: a concrete document (root r with one attribute whose
value needs escaping, a text kid containing a raw left angle bracket,
and an empty element kid) is well-formed and round-trips exactly. -/
theorem c9_serialize_reparse_roundtrip_witness :
    wellFormedDoc (XTree.elem ['r'] [(['k'], ['a', '&', 'b'])]
      [XTree.text ['h', '<', 'i'], XTree.elem ['b'] [] []]) = true ∧
    xmlReadMemoryM (xmlDocDumpToStringM
      (XTree.elem ['r'] [(['k'], ['a', '&', 'b'])]
        [XTree.text ['h', '<', 'i'], XTree.elem ['b'] [] []])) =
      some (XTree.elem ['r'] [(['k'], ['a', '&', 'b'])]
        [XTree.text ['h', '<', 'i'], XTree.elem ['b'] [] []]) :=
  ⟨by decide,
    (c9_serialize_reparse_roundtrip
      (XTree.elem ['r'] [(['k'], ['a', '&', 'b'])]
        [XTree.text ['h', '<', 'i'], XTree.elem ['b'] [] []])
      (by decide)).2.1⟩
